import Mathlib

/-!
Shallow embedding of the `fileserver` Go package (pkg/fileserver) of
file-server-go: the in-memory name index (`FileDB`), the startup
reconciler (`NewFileService`), and the three HTTP operations
`upload`, `download` and `list` of `FileService`.

Modelling conventions:
* A Go `map[string]*FileObject` is an association list with Go map
  assignment semantics (`dbAssign` replaces the first binding of the key
  or appends).
* The disk is a function `Fs : String → Option (List Nat)` from path to
  file contents (bytes as `Nat`).  `os.OpenFile(path, O_CREATE|O_WRONLY)`
  does NOT truncate: writing `body` over an existing file keeps the old
  tail beyond `body.length` bytes.  `os.Remove` maps the path to `none`;
  `os.Rename(src, dst)` moves the contents.
* The request is (fileName, contentLength, delivered body bytes,
  readErr); `readErr = true` models `io.Copy` returning an error.
  Filesystem open/stat/rename themselves are modelled as reliable; the
  fallible step the code guards (the stream copy and the byte-count
  verification) is explicit.
-/

/-- `FileObject` (part_004 lines 26-29), the per-name control block.
The `sync.RWMutex` field carries no data and is dropped from the
sequential model. -/
structure FileObject where
  Path : String
deriving DecidableEq, Repr

/-- `FileDB` (part_004 line 34): the in-memory name index,
`map[string]*FileObject` as an association list. -/
abbrev FileDB := List (String × FileObject)

/-- Disk state: path → file contents (bytes). -/
def Fs : Type := String → Option (List Nat)

/-- Go map read `db[k]`: first binding of the key, if any. -/
def dbLookup : FileDB → String → Option FileObject
  | [], _ => none
  | (k, v) :: rest, name => if k = name then some v else dbLookup rest name

/-- Go map assignment `db[k] = v`: replace the first binding of `k`,
append when absent. -/
def dbAssign : FileDB → String → FileObject → FileDB
  | [], k, v => [(k, v)]
  | (k0, v0) :: rest, k, v =>
      if k0 = k then (k0, v) :: rest else (k0, v0) :: dbAssign rest k v

/-- `DefaultStoragePath` (part_004 line 19). -/
def DefaultStoragePath : String := "files"

/-- `filePath := DefaultStoragePath + "/" + fileName`
(part_004 line 182): the final on-disk path of an object. -/
def finalPath (fileName : String) : String :=
  DefaultStoragePath ++ "/" ++ fileName

/-- `filePath += "-temp"` (part_004 line 203): the staging path used
when overwriting an existing object. -/
def tempPath (fileName : String) : String :=
  finalPath fileName ++ "-temp"

/-- The path `upload` streams the request body into: the staging path
when the name is already in the index, the final path otherwise
(part_004 lines 202-209). -/
def uploadWritePath (db : FileDB) (fileName : String) : String :=
  if (dbLookup db fileName).isSome then tempPath fileName else finalPath fileName

/-- The file contents after `io.Copy` streams `body` into a file opened
with `O_CREATE|O_WRONLY` at `path`: the written bytes, followed by
whatever tail of the pre-existing file (if any) lies beyond them —
the open mode has no `O_TRUNC`. -/
def copiedContent (fs : Fs) (path : String) (body : List Nat) : List Nat :=
  body ++ ((fs path).getD []).drop body.length

/-- Disk after a write of `content` at `path`. -/
def fsWrite (fs : Fs) (path : String) (content : List Nat) : Fs :=
  fun p => if p = path then some content else fs p

/-- `os.Remove(path)`. -/
def fsRemove (fs : Fs) (path : String) : Fs :=
  fun p => if p = path then none else fs p

/-- `os.Rename(src, dst)`: `dst` receives `src`'s contents, `src`
disappears. -/
def fsRename (fs : Fs) (src dst : String) : Fs :=
  fun p => if p = dst then fs src else if p = src then none else fs p

/-- Result of one `upload` call: HTTP status plus the index and disk
after the handler returns. -/
structure UploadResult where
  status : Nat
  db : FileDB
  fs : Fs

/-- `FileService.upload` (part_004 lines 172-280).
Steps, in source order: reject `ContentLength == 0` with 400; look the
name up in the DB; pick the write path (staging `-temp` path when found,
final path otherwise) and a control block (existing one when found, a
fresh `FileObject{Path: filePath}` otherwise); open the write path with
`O_CREATE|O_WRONLY` (no truncation — pre-existing bytes beyond the
written prefix survive); `io.Copy` the body; on copy error or on
`writtenBytes != ContentLength`, respond 500 and `os.Remove` the write
path; otherwise commit: when found, `os.Rename` the staging path onto
the final path; when not found, insert the fresh block into the DB;
respond 201. -/
def upload (db : FileDB) (fs : Fs) (fileName : String)
    (contentLength : Int) (body : List Nat) (readErr : Bool) : UploadResult :=
  if contentLength = 0 then
    ⟨400, db, fs⟩
  else
    match dbLookup db fileName with
    | some _ =>
        -- overwrite: stream into the staging path, commit by rename
        if readErr then
          ⟨500, db,
            fsRemove
              (fsWrite fs (tempPath fileName)
                (copiedContent fs (tempPath fileName) body))
              (tempPath fileName)⟩
        else if (body.length : Int) ≠ contentLength then
          ⟨500, db,
            fsRemove
              (fsWrite fs (tempPath fileName)
                (copiedContent fs (tempPath fileName) body))
              (tempPath fileName)⟩
        else
          ⟨201, db,
            fsRename
              (fsWrite fs (tempPath fileName)
                (copiedContent fs (tempPath fileName) body))
              (tempPath fileName) (finalPath fileName)⟩
    | none =>
        -- first write: stream straight into the final path, then insert
        -- the fresh control block on success
        if readErr then
          ⟨500, db,
            fsRemove
              (fsWrite fs (finalPath fileName)
                (copiedContent fs (finalPath fileName) body))
              (finalPath fileName)⟩
        else if (body.length : Int) ≠ contentLength then
          ⟨500, db,
            fsRemove
              (fsWrite fs (finalPath fileName)
                (copiedContent fs (finalPath fileName) body))
              (finalPath fileName)⟩
        else
          ⟨201, dbAssign db fileName ⟨finalPath fileName⟩,
            fsWrite fs (finalPath fileName)
              (copiedContent fs (finalPath fileName) body)⟩

/-- Result of one `download` call: HTTP status and, on 200, the body
bytes streamed to the client. -/
structure DownloadResult where
  status : Nat
  body : Option (List Nat)
deriving DecidableEq, Repr

/-- `FileService.download` (part_004 lines 282-333): look the name up in
the DB (absent → 404); `os.Stat` the control block's `Path` (failure →
500); stream the file's contents.  Sequentially the streamed byte count
always equals the stat size, so the final mismatch check passes. -/
def download (db : FileDB) (fs : Fs) (fileName : String) : DownloadResult :=
  match dbLookup db fileName with
  | none => ⟨404, none⟩
  | some fileObj =>
      match fs fileObj.Path with
      | none => ⟨500, none⟩
      | some content => ⟨200, some content⟩

/-- The key set of the index, in binding order. -/
def dbKeys (db : FileDB) : List String := db.map (·.1)

/-- `FileService.list` (part_004 lines 157-169): append every key of
`s.DB` to `fileList` (map iteration order — modelled by the association
list's order), then write `strings.Join(fileList, "\n") + "\n"`.
Note: this handler does not call `GetFileList`; it performs no sort. -/
def list (db : FileDB) : String :=
  let fileList := db.foldl (fun acc kv => acc ++ [kv.1]) ([] : List String)
  String.intercalate "\n" fileList ++ "\n"

/-- The rune-comparison loop of `GetFileList`'s `sort.Slice` closure
(part_004 lines 51-92), on the rune slices of the two names,
parameterized by the case-folding table `lower` the loop consults
(`unicode.ToLower` in the source — a table over all of Unicode): at the
first position where the lowered runes differ, compare them ascending;
at the first position where only the raw runes differ, compare them
DESCENDING (`iRunes[r] > jRunes[r]`, so lowercase sorts before
uppercase); when one name is a prefix of the other, the shorter comes
first.  Every ordering theorem below is proven for an arbitrary
`lower`, so it holds whatever mapping the Unicode table defines. -/
def runesLessWith (lower : Char → Char) : List Char → List Char → Bool
  | i :: is, j :: js =>
      if lower i ≠ lower j then decide (lower i < lower j)
      else if i ≠ j then decide (i > j)
      else runesLessWith lower is js
  | is, js => decide (is.length < js.length)

/-- The ASCII fragment of the `unicode.ToLower` table: `Char.toLower`
agrees with the Go table on ASCII and is the identity elsewhere.  It is
used only to instantiate the comparator for concrete (ASCII) inputs;
the general ordering theorems quantify over the table. -/
def toLowerRune (c : Char) : Char := c.toLower

/-- The `sort.Slice` less-function of `GetFileList` on whole names,
for the case-folding table `lower`. -/
def fileLessWith (lower : Char → Char) (s1 s2 : String) : Bool :=
  runesLessWith lower s1.data s2.data

/-- The per-character strict order decided by one non-equal iteration
of the comparator loop: lowered runes ascending, raw runes descending
on a lowered tie. -/
def charLessWith (lower : Char → Char) (i j : Char) : Bool :=
  if lower i ≠ lower j then decide (lower i < lower j) else decide (i > j)

/-- Insert a name into a list already sorted by `less`. -/
def insertSortedWith (less : String → String → Bool) (x : String) :
    List String → List String
  | [] => [x]
  | y :: ys => if less x y then x :: y :: ys else y :: insertSortedWith less x ys

/-- The key-collect-then-sort of `FileDB.GetFileList` (part_004 lines
44-96) for the case-folding table `lower`.  `sort.Slice` is modelled by
insertion sort; the comparator is a strict total order on the
(distinct) map keys, so every correct sort yields the same list. -/
def getFileListWith (lower : Char → Char) (db : FileDB) : List String :=
  (dbKeys db).foldr (insertSortedWith (fileLessWith lower)) []

/-- `FileDB.GetFileList` (part_004 lines 44-96): the sort instantiated
at the ASCII fragment of the case-folding table. -/
def GetFileList (db : FileDB) : List String :=
  getFileListWith toLowerRune db

/-- A directory entry as returned by `f.Readdir(-1)` in
`NewFileService` (part_004 line 139): a name plus whether the entry is
a directory.  The reconciliation loop reads only `Name()`. -/
structure DirEntry where
  name : String
  isDir : Bool
deriving DecidableEq, Repr

/-- The reconciliation loop of `NewFileService` (part_004 lines
145-151): for every directory entry — regular file or not — assign
`DB[entry.Name()] = &FileObject{Path: StoragePath + "/" + entry.Name()}`
into an initially empty DB. -/
def reconcile (entries : List DirEntry) : FileDB :=
  entries.foldl (fun db e => dbAssign db e.name ⟨finalPath e.name⟩) []

/-- `NewFileService` (part_004 lines 109-153), restricted to the state
it builds: the `Readdir` outcome is passed in; a directory that cannot
be opened or listed makes construction fail (the error is returned and
the caller exits), otherwise the DB is populated by `reconcile`. -/
def newFileService (readdir : Except String (List DirEntry)) :
    Except String FileDB :=
  match readdir with
  | .error e => .error e
  | .ok entries => .ok (reconcile entries)

/-!
Race model for the index.  `s.DB` is a plain Go map with no lock of its
own; `upload` reads it (`fileObj, found := s.DB[fileName]`, line 193)
and, for a previously unknown name, writes it only at the end of the
success path (`s.DB[fileName] = fileObj`, line 274).  Two requests that
run concurrently therefore interleave a lookup phase and an insert
phase.  The model below executes the two phases of two requests for the
same fresh name in the interleaving lookup₁; lookup₂; insert₁; insert₂
under sequential consistency (the actual Go program doesn't even
guarantee that much: an unsynchronized concurrent map read/write is a
data race).  `allocId` models the pointer identity of each
`&FileObject{...}` allocation.
-/

/-- A control block with the pointer identity of its allocation made
explicit. -/
structure RaceBlock where
  path : String
  allocId : Nat
deriving DecidableEq, Repr

/-- The index, as seen by the race model. -/
abbrev RaceDB := List (String × RaceBlock)

/-- Go map read on the race model's index. -/
def raceLookup : RaceDB → String → Option RaceBlock
  | [], _ => none
  | (k, v) :: rest, name => if k = name then some v else raceLookup rest name

/-- Go map assignment on the race model's index. -/
def raceAssign : RaceDB → String → RaceBlock → RaceDB
  | [], k, v => [(k, v)]
  | (k0, v0) :: rest, k, v =>
      if k0 = k then (k0, v) :: rest else (k0, v0) :: raceAssign rest k v

/-- The lookup phase of `upload` (part_004 lines 193 and 202-209): read
the map; when the name is absent, allocate a fresh control block
(`freshId` is the allocation's pointer identity). -/
def lookupPhase (db : RaceDB) (name : String) (freshId : Nat) :
    Bool × RaceBlock :=
  match raceLookup db name with
  | some b => (true, b)
  | none => (false, ⟨finalPath name, freshId⟩)

/-- Outcome of two racing first-writes: what each request's `found` flag
was, how many control blocks were allocated, and the final index. -/
structure RaceResult where
  found1 : Bool
  found2 : Bool
  blocksCreated : Nat
  db : RaceDB
deriving DecidableEq, Repr

/-- Two concurrent uploads of the same previously unknown `name`,
interleaved as lookup₁; lookup₂; insert₁; insert₂ on an initially empty
index.  Each request's insert phase (part_004 lines 273-275) runs only
when its own lookup phase reported `found = false`. -/
def firstWriteRace (name : String) : RaceResult :=
  let r1 := lookupPhase [] name 1
  let r2 := lookupPhase [] name 2
  let db1 := if r1.1 then [] else raceAssign [] name r1.2
  let db2 := if r2.1 then db1 else raceAssign db1 name r2.2
  ⟨r1.1, r2.1,
    (if r1.1 then 0 else 1) + (if r2.1 then 0 else 1), db2⟩

/-- The invariant of claim C10: every binding of the index maps a name
to a control block whose `Path` is `StoragePath + "/" + name`. -/
def StoragePathInv (db : FileDB) : Prop :=
  ∀ kv ∈ db, kv.2.Path = finalPath kv.1

/-- An empty disk, the state before any upload. -/
def fsEmpty : Fs := fun _ => none

/-- Scenario for the round-trip law: commit `[7]` under the name
`a`. -/
def rtState1 : UploadResult := upload [] fsEmpty "a" 1 [7] false

/-- Scenario, step 2: commit `[1, 2, 3]` under the name `a-temp` —
a legal object name that happens to coincide with `a`'s staging
name. -/
def rtState2 : UploadResult := upload rtState1.db rtState1.fs "a-temp" 3 [1, 2, 3] false

/-- Scenario, step 3: overwrite `a` with the single byte `[9]`.  The
staging path `files/a-temp` is the committed file of the object
`a-temp`, and `os.OpenFile` without `O_TRUNC` keeps its old tail. -/
def rtState3 : UploadResult := upload rtState2.db rtState2.fs "a" 1 [9] false

/-- Scenario for List ordering: commit `b.txt`, then `A.txt`, then
`a.txt`, each with a one-byte body. -/
def lsState1 : UploadResult := upload [] fsEmpty "b.txt" 1 [1] false

/-- Second commit of the List-ordering scenario. -/
def lsState2 : UploadResult := upload lsState1.db lsState1.fs "A.txt" 1 [2] false

/-- Third commit of the List-ordering scenario. -/
def lsState3 : UploadResult := upload lsState2.db lsState2.fs "a.txt" 1 [3] false

/-!  Helper lemmas. -/

/-- The staging path of a name is its final path plus the 5-character
suffix `-temp`, so the two are never equal. -/
theorem finalPath_ne_tempPath (n : String) : finalPath n ≠ tempPath n := by
  intro h
  have hlen := congrArg String.length h
  have h5 : ("-temp" : String).length = 5 := rfl
  rw [tempPath, String.length_append, h5] at hlen
  omega

/-- Appending the same suffix to two strings preserves distinctness. -/
theorem append_right_inj {m n suf : String} (h : m ++ suf = n ++ suf) : m = n := by
  apply String.ext
  have hd := congrArg String.data h
  rw [String.data_append, String.data_append] at hd
  exact List.append_cancel_right hd

/-- Prepending the same prefix to two strings preserves equality both
ways. -/
theorem append_left_inj {pre m n : String} (h : pre ++ m = pre ++ n) : m = n := by
  apply String.ext
  have hd := congrArg String.data h
  rw [String.data_append, String.data_append] at hd
  exact List.append_cancel_left hd

/-- `finalPath` is injective. -/
theorem finalPath_inj {m n : String} (h : finalPath m = finalPath n) : m = n := by
  rw [finalPath, finalPath, String.append_assoc, String.append_assoc] at h
  exact append_left_inj (append_left_inj h)

/-- `tempPath` is injective. -/
theorem tempPath_inj {m n : String} (h : tempPath m = tempPath n) : m = n :=
  finalPath_inj (append_right_inj h)

/-- The imperative key-collecting loop of `list` produces exactly the
key list of the map. -/
theorem foldl_append_keys (db : FileDB) (acc : List String) :
    db.foldl (fun acc kv => acc ++ [kv.1]) acc = acc ++ dbKeys db := by
  induction db generalizing acc with
  | nil => simp [dbKeys]
  | cons kv rest ih =>
      rw [List.foldl_cons, ih]
      simp [dbKeys]

/-- Inserting into a sorted list permutes consing. -/
theorem insertSortedWith_perm (less : String → String → Bool) (x : String)
    (l : List String) : (insertSortedWith less x l).Perm (x :: l) := by
  induction l with
  | nil => exact List.Perm.refl _
  | cons y ys ih =>
      rw [insertSortedWith]
      by_cases h : less x y
      · rw [if_pos h]
      · rw [if_neg h]
        exact (ih.cons y).trans (List.Perm.swap x y ys)

/-- The insertion sort underlying `GetFileList` permutes its input. -/
theorem foldr_insertSortedWith_perm (less : String → String → Bool)
    (l : List String) : (l.foldr (insertSortedWith less) []).Perm l := by
  induction l with
  | nil => exact List.Perm.refl _
  | cons x xs ih => exact (insertSortedWith_perm less x _).trans (ih.cons x)

/-- The sorted key list is a permutation of the stored names, for every
case-folding table. -/
theorem getFileListWith_perm (lower : Char → Char) (db : FileDB) :
    (getFileListWith lower db).Perm (dbKeys db) :=
  foldr_insertSortedWith_perm (fileLessWith lower) (dbKeys db)

/-- The per-character order never holds reflexively. -/
theorem charLessWith_irrefl (lower : Char → Char) (i : Char) :
    charLessWith lower i i = false := by
  rw [charLessWith, if_neg (fun h : lower i ≠ lower i => h rfl)]
  exact decide_eq_false (lt_irrefl i)

/-- The per-character order is asymmetric. -/
theorem charLessWith_asymm (lower : Char → Char) {i j : Char}
    (h : charLessWith lower i j = true) : charLessWith lower j i = false := by
  rw [charLessWith] at h ⊢
  by_cases h1 : lower i ≠ lower j
  · rw [if_pos h1] at h
    rw [if_pos (fun he : lower j = lower i => h1 he.symm)]
    exact decide_eq_false (lt_asymm (of_decide_eq_true h))
  · have he : lower i = lower j := not_not.mp h1
    rw [if_neg h1] at h
    rw [if_neg (fun hne : lower j ≠ lower i => hne he.symm)]
    exact decide_eq_false (lt_asymm (of_decide_eq_true h))

/-- The per-character order is transitive. -/
theorem charLessWith_trans (lower : Char → Char) {i j k : Char}
    (h1 : charLessWith lower i j = true) (h2 : charLessWith lower j k = true) :
    charLessWith lower i k = true := by
  rw [charLessWith] at h1 h2 ⊢
  by_cases e1 : lower i ≠ lower j
  · rw [if_pos e1] at h1
    have l1 : lower i < lower j := of_decide_eq_true h1
    by_cases e2 : lower j ≠ lower k
    · rw [if_pos e2] at h2
      have l3 : lower i < lower k := lt_trans l1 (of_decide_eq_true h2)
      rw [if_pos (ne_of_lt l3)]
      exact decide_eq_true l3
    · have l3 : lower i < lower k := not_not.mp e2 ▸ l1
      rw [if_pos (ne_of_lt l3)]
      exact decide_eq_true l3
  · have eij : lower i = lower j := not_not.mp e1
    rw [if_neg e1] at h1
    have g1 : j < i := of_decide_eq_true h1
    by_cases e2 : lower j ≠ lower k
    · rw [if_pos e2] at h2
      have l3 : lower i < lower k := eij ▸ of_decide_eq_true h2
      rw [if_pos (ne_of_lt l3)]
      exact decide_eq_true l3
    · have ejk : lower j = lower k := not_not.mp e2
      rw [if_neg e2] at h2
      have eik : lower i = lower k := eij.trans ejk
      rw [if_neg (fun hne : lower i ≠ lower k => hne eik)]
      exact decide_eq_true (lt_trans (of_decide_eq_true h2) g1)

/-- The per-character order relates every pair of distinct characters
one way or the other. -/
theorem charLessWith_connex (lower : Char → Char) {i j : Char} (h : i ≠ j) :
    charLessWith lower i j = true ∨ charLessWith lower j i = true := by
  rw [charLessWith, charLessWith]
  by_cases e : lower i = lower j
  · rw [if_neg (fun hne : lower i ≠ lower j => hne e),
      if_neg (fun hne : lower j ≠ lower i => hne e.symm)]
    rcases lt_or_gt_of_ne h with hlt | hgt
    · exact Or.inr (decide_eq_true hlt)
    · exact Or.inl (decide_eq_true hgt)
  · have e' : lower i ≠ lower j := e
    rw [if_pos e', if_pos (fun he : lower j = lower i => e he.symm)]
    rcases lt_or_gt_of_ne e' with hlt | hgt
    · exact Or.inl (decide_eq_true hlt)
    · exact Or.inr (decide_eq_true hgt)

/-- The comparator on cons cells: recurse on an equal head, decide by
the per-character order on a differing head. -/
theorem runesLessWith_cons_cons (lower : Char → Char) (i j : Char)
    (is js : List Char) :
    runesLessWith lower (i :: is) (j :: js) =
      if i = j then runesLessWith lower is js else charLessWith lower i j := by
  rw [runesLessWith, charLessWith]
  by_cases h1 : lower i ≠ lower j
  · have h2 : i ≠ j := fun he => h1 (congrArg lower he)
    rw [if_pos h1, if_pos h1, if_neg h2]
  · rw [if_neg h1, if_neg h1]
    by_cases h2 : i = j
    · rw [if_pos h2, if_neg (fun hne : i ≠ j => hne h2)]
    · rw [if_neg h2, if_pos h2]

/-- The comparator is asymmetric. -/
theorem runesLessWith_asymm (lower : Char → Char) (is : List Char) :
    ∀ js, runesLessWith lower is js = true →
      runesLessWith lower js is = false := by
  induction is with
  | nil =>
      intro js h
      cases js with
      | nil => exact absurd h (by simp [runesLessWith])
      | cons j js' => simp [runesLessWith]
  | cons i is' ih =>
      intro js h
      cases js with
      | nil => exact absurd h (by simp [runesLessWith])
      | cons j js' =>
          rw [runesLessWith_cons_cons] at h ⊢
          by_cases he : i = j
          · rw [if_pos he] at h
            rw [if_pos he.symm]
            exact ih js' h
          · rw [if_neg he] at h
            rw [if_neg (fun hji : j = i => he hji.symm)]
            exact charLessWith_asymm lower h

/-- The comparator is transitive. -/
theorem runesLessWith_trans (lower : Char → Char) (is : List Char) :
    ∀ js ks, runesLessWith lower is js = true →
      runesLessWith lower js ks = true →
      runesLessWith lower is ks = true := by
  induction is with
  | nil =>
      intro js ks h1 h2
      cases ks with
      | nil =>
          cases js with
          | nil => exact absurd h1 (by simp [runesLessWith])
          | cons j js' => exact absurd h2 (by simp [runesLessWith])
      | cons k ks' => simp [runesLessWith]
  | cons i is' ih =>
      intro js ks h1 h2
      cases js with
      | nil => exact absurd h1 (by simp [runesLessWith])
      | cons j js' =>
          cases ks with
          | nil => exact absurd h2 (by simp [runesLessWith])
          | cons k ks' =>
              rw [runesLessWith_cons_cons] at h1 h2 ⊢
              by_cases hij : i = j
              · rw [if_pos hij] at h1
                by_cases hjk : j = k
                · rw [if_pos hjk] at h2
                  rw [if_pos (hij.trans hjk)]
                  exact ih js' ks' h1 h2
                · rw [if_neg hjk] at h2
                  rw [if_neg (fun he : i = k => hjk (hij.symm.trans he)),
                    hij]
                  exact h2
              · rw [if_neg hij] at h1
                by_cases hjk : j = k
                · rw [if_pos hjk] at h2
                  rw [if_neg (fun he : i = k => hij (he.trans hjk.symm)),
                    ← hjk]
                  exact h1
                · rw [if_neg hjk] at h2
                  have hik : i ≠ k := by
                    intro he
                    have h2' : charLessWith lower j i = true := by
                      rw [he]
                      exact h2
                    have hcontra := charLessWith_asymm lower h1
                    rw [h2'] at hcontra
                    exact Bool.noConfusion hcontra
                  rw [if_neg hik]
                  exact charLessWith_trans lower h1 h2

/-- The comparator relates every pair of distinct rune lists one way or
the other. -/
theorem runesLessWith_connex (lower : Char → Char) (is : List Char) :
    ∀ js, is ≠ js →
      runesLessWith lower is js = true ∨ runesLessWith lower js is = true := by
  induction is with
  | nil =>
      intro js h
      cases js with
      | nil => exact absurd rfl h
      | cons j js' => exact Or.inl (by simp [runesLessWith])
  | cons i is' ih =>
      intro js h
      cases js with
      | nil => exact Or.inr (by simp [runesLessWith])
      | cons j js' =>
          rw [runesLessWith_cons_cons, runesLessWith_cons_cons]
          by_cases hij : i = j
          · subst hij
            rw [if_pos rfl, if_pos rfl]
            exact ih js' (fun he => h (by rw [he]))
          · rw [if_neg hij, if_neg (fun hji : j = i => hij hji.symm)]
            exact charLessWith_connex lower hij

/-- The string comparator is asymmetric. -/
theorem fileLessWith_asymm (lower : Char → Char) {a b : String}
    (h : fileLessWith lower a b = true) : fileLessWith lower b a = false :=
  runesLessWith_asymm lower a.data b.data h

/-- The string comparator is transitive. -/
theorem fileLessWith_trans (lower : Char → Char) {a b c : String}
    (h1 : fileLessWith lower a b = true) (h2 : fileLessWith lower b c = true) :
    fileLessWith lower a c = true :=
  runesLessWith_trans lower a.data b.data c.data h1 h2

/-- The string comparator strictly orders every pair of distinct names,
one way or the other. -/
theorem fileLessWith_connex (lower : Char → Char) {a b : String} (h : a ≠ b) :
    fileLessWith lower a b = true ∨ fileLessWith lower b a = true :=
  runesLessWith_connex lower a.data b.data (fun he => h (String.ext he))

/-- Inserting into a list sorted by the comparator keeps it sorted:
no later name compares strictly before an earlier one. -/
theorem insertSortedWith_pairwise (lower : Char → Char) (x : String)
    (l : List String)
    (h : l.Pairwise (fun a b => fileLessWith lower b a = false)) :
    (insertSortedWith (fileLessWith lower) x l).Pairwise
      (fun a b => fileLessWith lower b a = false) := by
  induction l with
  | nil => simp [insertSortedWith]
  | cons y ys ih =>
      rw [insertSortedWith]
      rcases List.pairwise_cons.mp h with ⟨hy, hys⟩
      by_cases hxy : fileLessWith lower x y = true
      · rw [if_pos hxy]
        refine List.pairwise_cons.mpr ⟨?_, h⟩
        intro z hz
        rcases List.mem_cons.mp hz with rfl | hz2
        · exact fileLessWith_asymm lower hxy
        · cases hzx : fileLessWith lower z x with
          | false => rfl
          | true =>
              have hzy : fileLessWith lower z y = true :=
                fileLessWith_trans lower hzx hxy
              rw [hy z hz2] at hzy
              exact Bool.noConfusion hzy
      · rw [if_neg hxy]
        refine List.pairwise_cons.mpr ⟨?_, ih hys⟩
        intro z hz
        have hz1 : z ∈ x :: ys :=
          (insertSortedWith_perm (fileLessWith lower) x ys).mem_iff.mp hz
        rcases List.mem_cons.mp hz1 with rfl | hz2
        · cases hfxy : fileLessWith lower z y with
          | false => rfl
          | true => exact absurd hfxy hxy
        · exact hy z hz2

/-- The sorted key list is sorted by the comparator, for every
case-folding table. -/
theorem getFileListWith_pairwise (lower : Char → Char) (db : FileDB) :
    (getFileListWith lower db).Pairwise
      (fun a b => fileLessWith lower b a = false) := by
  rw [getFileListWith]
  generalize dbKeys db = l
  induction l with
  | nil => exact List.Pairwise.nil
  | cons x xs ih => exact insertSortedWith_pairwise lower x _ ih

/-- Reading back the key just assigned returns the assigned block. -/
theorem dbLookup_assign_self (db : FileDB) (k : String) (v : FileObject) :
    dbLookup (dbAssign db k v) k = some v := by
  induction db with
  | nil => simp [dbAssign, dbLookup]
  | cons kv rest ih =>
      obtain ⟨k0, v0⟩ := kv
      rw [dbAssign]
      by_cases h : k0 = k
      · rw [if_pos h, dbLookup, if_pos h]
      · rw [if_neg h, dbLookup, if_neg h]
        exact ih

/-- Assigning one key leaves the lookup of any other key unchanged. -/
theorem dbLookup_assign_ne (db : FileDB) (k k2 : String) (v : FileObject)
    (h : k ≠ k2) : dbLookup (dbAssign db k v) k2 = dbLookup db k2 := by
  induction db with
  | nil => simp [dbAssign, dbLookup, h]
  | cons kv rest ih =>
      obtain ⟨k0, v0⟩ := kv
      rw [dbAssign]
      by_cases h0 : k0 = k
      · subst h0
        rw [if_pos rfl, dbLookup, dbLookup, if_neg h, if_neg h]
      · rw [if_neg h0, dbLookup, dbLookup]
        by_cases h2 : k0 = k2
        · rw [if_pos h2, if_pos h2]
        · rw [if_neg h2, if_neg h2]
          exact ih

/-- Lookup through the reconciliation fold: a name is bound exactly when
some entry carries it, and then to the block `⟨finalPath name⟩`. -/
theorem dbLookup_reconcile_foldl (entries : List DirEntry) (db : FileDB)
    (name : String) :
    dbLookup (entries.foldl (fun db e => dbAssign db e.name ⟨finalPath e.name⟩) db) name =
      if entries.any (fun e => e.name = name) then some ⟨finalPath name⟩
      else dbLookup db name := by
  induction entries generalizing db with
  | nil => simp
  | cons e rest ih =>
      rw [List.foldl_cons, ih, List.any_cons]
      by_cases hrest : rest.any (fun e => e.name = name)
      · rw [if_pos hrest, if_pos (by simp [hrest])]
      · rw [if_neg hrest]
        by_cases he : e.name = name
        · subst he
          rw [if_pos (by simp), dbLookup_assign_self]
        · rw [if_neg (by simp [he, hrest]), dbLookup_assign_ne _ _ _ _ he]

/-- After an `upload`, the index is either unchanged, or — only on the
201 success path of a previously unknown name — extended by the block
`⟨finalPath fileName⟩` at `fileName`. -/
theorem upload_db_eq (db : FileDB) (fs : Fs) (fileName : String)
    (contentLength : Int) (body : List Nat) (readErr : Bool) :
    (upload db fs fileName contentLength body readErr).db = db ∨
      ((upload db fs fileName contentLength body readErr).status = 201 ∧
       (upload db fs fileName contentLength body readErr).db =
         dbAssign db fileName ⟨finalPath fileName⟩) := by
  rw [upload]
  split
  · exact Or.inl rfl
  · split
    · split
      · exact Or.inl rfl
      · split
        · exact Or.inl rfl
        · exact Or.inl rfl
    · split
      · exact Or.inl rfl
      · split
        · exact Or.inl rfl
        · exact Or.inr ⟨rfl, rfl⟩

/-- A failed `upload` (any status other than 201) leaves the index
untouched. -/
theorem upload_db_unchanged_of_fail (db : FileDB) (fs : Fs) (fileName : String)
    (contentLength : Int) (body : List Nat) (readErr : Bool)
    (h : (upload db fs fileName contentLength body readErr).status ≠ 201) :
    (upload db fs fileName contentLength body readErr).db = db := by
  rcases upload_db_eq db fs fileName contentLength body readErr with h1 | ⟨h201, _⟩
  · exact h1
  · exact absurd h201 h

/-- Go map assignment of a block satisfying the path discipline
preserves the invariant. -/
theorem storagePathInv_assign (db : FileDB) (n : String)
    (h : StoragePathInv db) : StoragePathInv (dbAssign db n ⟨finalPath n⟩) := by
  induction db with
  | nil =>
      intro kv hkv
      rw [dbAssign] at hkv
      rcases List.mem_cons.mp hkv with h1 | h1
      · rw [h1]
      · exact absurd h1 (List.not_mem_nil kv)
  | cons kv0 rest ih =>
      obtain ⟨k0, v0⟩ := kv0
      intro kv hkv
      rw [dbAssign] at hkv
      by_cases hk : k0 = n
      · rw [if_pos hk] at hkv
        rcases List.mem_cons.mp hkv with h1 | h1
        · rw [h1]
          simp only
          rw [hk]
        · exact h kv (List.mem_cons_of_mem _ h1)
      · rw [if_neg hk] at hkv
        rcases List.mem_cons.mp hkv with h1 | h1
        · exact h kv (h1 ▸ List.mem_cons_self _ _)
        · exact ih (fun kv2 hkv2 => h kv2 (List.mem_cons_of_mem _ hkv2)) kv h1

/-- The reconciliation fold preserves the path invariant. -/
theorem storagePathInv_reconcile_foldl (entries : List DirEntry) (db : FileDB)
    (h : StoragePathInv db) :
    StoragePathInv
      (entries.foldl (fun db e => dbAssign db e.name ⟨finalPath e.name⟩) db) := by
  induction entries generalizing db with
  | nil => exact h
  | cons e rest ih =>
      rw [List.foldl_cons]
      exact ih _ (storagePathInv_assign db e.name h)

/-- A successful first-write `upload` (unknown name, exact byte count,
no stream error) commits to the final path and inserts the fresh
control block. -/
theorem upload_new_success (db : FileDB) (fs : Fs) (name : String)
    (body : List Nat) (hfind : dbLookup db name = none)
    (hcl : (body.length : Int) ≠ 0) :
    upload db fs name (body.length : Int) body false =
      ⟨201, dbAssign db name ⟨finalPath name⟩,
        fsWrite fs (finalPath name) (copiedContent fs (finalPath name) body)⟩ := by
  rw [upload, if_neg hcl]
  split
  · next heq =>
      rw [hfind] at heq
      exact Option.noConfusion heq
  · rw [if_neg (fun h : (body.length : Int) ≠ (body.length : Int) => h rfl)]
    rfl

/-- A successful overwrite `upload` (known name, exact byte count, no
stream error) streams into the staging path and commits by renaming it
onto the final path; the index is untouched. -/
theorem upload_found_success (db : FileDB) (fs : Fs) (name : String)
    (body : List Nat) (obj : FileObject) (hfind : dbLookup db name = some obj)
    (hcl : (body.length : Int) ≠ 0) :
    upload db fs name (body.length : Int) body false =
      ⟨201, db,
        fsRename
          (fsWrite fs (tempPath name) (copiedContent fs (tempPath name) body))
          (tempPath name) (finalPath name)⟩ := by
  rw [upload, if_neg hcl]
  split
  · rw [if_neg (fun h : (body.length : Int) ≠ (body.length : Int) => h rfl)]
    rfl
  · next heq =>
      rw [hfind] at heq
      exact Option.noConfusion heq

/-- An overwrite `upload` whose stream errors or delivers a byte count
different from the declared length fails with 500 and removes the
staging file; the index is untouched. -/
theorem upload_found_fail (db : FileDB) (fs : Fs) (name : String)
    (obj : FileObject) (contentLength : Int) (body : List Nat) (readErr : Bool)
    (hfind : dbLookup db name = some obj) (hcl : contentLength ≠ 0)
    (hfail : readErr = true ∨ (body.length : Int) ≠ contentLength) :
    upload db fs name contentLength body readErr =
      ⟨500, db,
        fsRemove
          (fsWrite fs (tempPath name) (copiedContent fs (tempPath name) body))
          (tempPath name)⟩ := by
  rw [upload, if_neg hcl]
  split
  · cases readErr with
    | true => rfl
    | false =>
        have hne : (body.length : Int) ≠ contentLength :=
          hfail.resolve_left (by simp)
        rw [if_pos hne]
        rfl
  · next heq =>
      rw [hfind] at heq
      exact Option.noConfusion heq

/-- `download` of a name bound to a block whose path holds `content`
returns 200 with exactly `content`. -/
theorem download_eq (db : FileDB) (fs : Fs) (name : String)
    (obj : FileObject) (content : List Nat)
    (hfind : dbLookup db name = some obj) (hfs : fs obj.Path = some content) :
    download db fs name = ⟨200, some content⟩ := by
  rw [download]
  split
  · next h =>
      rw [hfind] at h
      exact Option.noConfusion h
  · next obj2 h =>
      rw [hfind] at h
      cases Option.some.inj h
      rw [hfs]

/-!  Claim theorems. -/

/-- C3: a Put whose declared length is 0 is rejected with HTTP 400
before any I/O — the handler returns with the index and the disk both
exactly as they were, for every store state, name, delivered body and
stream outcome. -/
theorem zero_length_put_rejected (db : FileDB) (fs : Fs) (fileName : String)
    (body : List Nat) (readErr : Bool) :
    upload db fs fileName 0 body readErr = ⟨400, db, fs⟩ := by
  rw [upload, if_pos rfl]

/-- C4 counterexample: committing `b.txt`, `A.txt`, `a.txt` (all three
Puts succeed) and sorting the index keys with `GetFileList` yields
`a.txt, A.txt, b.txt` — not the claimed `A.txt, a.txt, b.txt`: the
comparator's tie-break for names differing only in case is raw
code-point DESCENDING, so the lowercase name sorts first. -/
theorem getFileList_example_order_refutes_claim :
    lsState1.status = 201 ∧ lsState2.status = 201 ∧ lsState3.status = 201 ∧
    GetFileList lsState3.db = ["a.txt", "A.txt", "b.txt"] ∧
    GetFileList lsState3.db ≠ ["A.txt", "a.txt", "b.txt"] := by
  decide

/-- C4 amended: `GetFileList` returns the stored names in a total
deterministic order — sorted ascending by the source comparator:
case-insensitive lexicographic via the case-folding table, ties between
names equal under the table broken by raw code-point DESCENDING
(lowercase before uppercase), and a name that is a prefix of another
coming first.  Proven for EVERY case-folding table `lower` (so the
result is independent of what `unicode.ToLower`'s full Unicode table
maps any rune to): the output is a permutation of the stored names, it
is sorted by the comparator (no later name compares strictly before an
earlier one), and any two distinct names are strictly comparator-ordered
(totality, so the order is deterministic); `GetFileList` is the
instantiation at the table's ASCII fragment, and after committing
`b.txt`, `A.txt`, `a.txt` it returns `a.txt, A.txt, b.txt`. -/
theorem getFileList_sorted_lowercase_first (lower : Char → Char)
    (db : FileDB) (a b : String) (hab : a ≠ b) :
    GetFileList lsState3.db = ["a.txt", "A.txt", "b.txt"] ∧
    GetFileList db = getFileListWith toLowerRune db ∧
    (getFileListWith lower db).Perm (dbKeys db) ∧
    (getFileListWith lower db).Pairwise
      (fun x y => fileLessWith lower y x = false) ∧
    (fileLessWith lower a b = true ∨ fileLessWith lower b a = true) :=
  ⟨by decide, rfl, getFileListWith_perm lower db,
    getFileListWith_pairwise lower db, fileLessWith_connex lower hab⟩

/-- C4 witness: the amended ordering theorem instantiated at the ASCII
case-folding fragment, the index holding `b.txt`, `A.txt`, `a.txt`,
and the distinct pair `("a.txt", "b.txt")`. -/
theorem getFileList_sorted_lowercase_first_witness :
    ("a.txt" : String) ≠ "b.txt" ∧
    (GetFileList lsState3.db = ["a.txt", "A.txt", "b.txt"] ∧
     GetFileList lsState3.db = getFileListWith toLowerRune lsState3.db ∧
     (getFileListWith toLowerRune lsState3.db).Perm (dbKeys lsState3.db) ∧
     (getFileListWith toLowerRune lsState3.db).Pairwise
       (fun x y => fileLessWith toLowerRune y x = false) ∧
     (fileLessWith toLowerRune "a.txt" "b.txt" = true ∨
       fileLessWith toLowerRune "b.txt" "a.txt" = true)) :=
  ⟨by decide,
    getFileList_sorted_lowercase_first toLowerRune lsState3.db
      "a.txt" "b.txt" (by decide)⟩

/-- C5 counterexample: on an empty store the `list` handler's response
body is a single newline `"\n"`, not the empty string — the handler
appends `"\n"` to the join unconditionally. -/
theorem list_empty_store_body_not_empty :
    list ([] : FileDB) = "\n" ∧ list ([] : FileDB) ≠ "" := by
  constructor
  · rfl
  · decide

/-- C5 amended: `list` always succeeds; its body is the stored names in
the index's enumeration order (the handler performs no sort) joined by
newlines, with one trailing newline appended — hence a single `"\n"`
when the store is empty. -/
theorem list_body_joins_keys_with_trailing_newline (db : FileDB) :
    list db = String.intercalate "\n" (dbKeys db) ++ "\n" ∧
    list ([] : FileDB) = "\n" := by
  constructor
  · rw [list]
    rw [foldl_append_keys db []]
    rfl
  · rfl

/-- C6: `upload` performs no path-traversal validation.  A Put named
`../evil` with declared length 3 and three delivered bytes is accepted
with 201; the store resolves it to the disk path `files/../evil` — a
location outside the backing directory — writes the payload there, and
inserts the traversal name into the index. -/
theorem traversal_name_accepted_and_written :
    (upload [] fsEmpty "../evil" 3 [1, 2, 3] false).status = 201 ∧
    (upload [] fsEmpty "../evil" 3 [1, 2, 3] false).fs "files/../evil" =
      some [1, 2, 3] ∧
    dbLookup (upload [] fsEmpty "../evil" 3 [1, 2, 3] false).db "../evil" =
      some ⟨"files/../evil"⟩ := by
  decide

/-- C7: two concurrent first-writes to the previously unknown name
`n.txt`, interleaved as lookup₁; lookup₂; insert₁; insert₂ on the
unsynchronized index, both observe `found = false` (neither "loser
observes existed = true"), allocate TWO control blocks between them,
and the second insert overwrites the first caller's block in the index
— refuting atomic `getOrCreate`. -/
theorem concurrent_first_writes_create_two_blocks :
    (firstWriteRace "n.txt").found1 = false ∧
    (firstWriteRace "n.txt").found2 = false ∧
    (firstWriteRace "n.txt").blocksCreated = 2 ∧
    (firstWriteRace "n.txt").db = [("n.txt", ⟨"files/n.txt", 2⟩)] := by
  decide

/-- C8 counterexample: a backing directory whose only entry is a
subdirectory `sub` (`isDir = true`, so zero regular files) still makes
the reconciler insert a control block keyed `sub` — the loop indexes
every `Readdir` entry, not just regular files. -/
theorem reconciler_indexes_directory_entry :
    (∀ e ∈ [DirEntry.mk "sub" true], e.isDir = true) ∧
    dbLookup (reconcile [DirEntry.mk "sub" true]) "sub" =
      some ⟨"files/sub"⟩ ∧
    reconcile [DirEntry.mk "sub" true] ≠ [] := by
  decide

/-- C8 amended: at startup the reconciler lists the backing directory
non-recursively and inserts exactly one control block per directory
entry found — regular file or not — keyed by the entry's name with
`StoragePath + "/" + name` as its path, so every pre-existing file is
visible after restart; an unreadable directory is fatal (the error is
returned and service construction aborts). -/
theorem reconcile_one_block_per_entry (entries : List DirEntry)
    (name : String) (e : String) :
    dbLookup (reconcile entries) name =
      (if entries.any (fun en => en.name = name) then some ⟨finalPath name⟩
       else none) ∧
    newFileService (Except.error e) = Except.error e := by
  constructor
  · rw [reconcile, dbLookup_reconcile_foldl]
    rfl
  · rfl

/-- C9 counterexample: the staging path of a Put overwriting `a` is
`files/a-temp`, which IS the final path of the distinct object name
`a-temp` — so an overwrite of `a` opens, writes and renames away the
committed file of `a-temp`. -/
theorem temp_path_collides_with_final_path :
    ("a" : String) ≠ "a-temp" ∧ tempPath "a" = finalPath "a-temp" := by
  decide

/-- C9 amended: for distinct names `m` and `n`, the staging path of `m`
never collides with the staging path of `n`, and collides with the
final path of `n` exactly when `n = m ++ "-temp"` — so a Put to `m` can
clobber another name's on-disk state only for the one name
`m ++ "-temp"`. -/
theorem temp_path_collisions_characterized (m n : String) (hmn : m ≠ n) :
    tempPath m ≠ tempPath n ∧ (tempPath m = finalPath n ↔ n = m ++ "-temp") := by
  constructor
  · intro h
    exact hmn (tempPath_inj h)
  · constructor
    · intro h
      rw [tempPath, finalPath, finalPath, String.append_assoc,
        String.append_assoc, String.append_assoc] at h
      exact (append_left_inj (append_left_inj h)).symm
    · intro h
      rw [h, tempPath, finalPath, finalPath, String.append_assoc,
        String.append_assoc]

/-- C9 witness: the amended characterization at the concrete pair
`("a", "b")`. -/
theorem temp_path_collisions_characterized_witness :
    ("a" : String) ≠ "b" ∧
    (tempPath "a" ≠ tempPath "b" ∧
      (tempPath "a" = finalPath "b" ↔ "b" = "a" ++ "-temp")) :=
  ⟨by decide, temp_path_collisions_characterized "a" "b" (by decide)⟩

/-- C1 counterexample: three successfully committed Puts — `[7]` to
`a`, `[1, 2, 3]` to `a-temp`, then `[9]` to `a` — after which a Get of
`a`, with no intervening Put to `a`, returns `[9, 2, 3]`, not the
committed payload `[9]`: the overwrite's staging path is `a-temp`'s
committed file, and the truncation-free open leaves its old tail
behind the one written byte, which the rename then commits. -/
theorem roundtrip_violated_by_temp_name_collision :
    rtState1.status = 201 ∧ rtState2.status = 201 ∧ rtState3.status = 201 ∧
    download rtState3.db rtState3.fs "a" = ⟨200, some [9, 2, 3]⟩ ∧
    (some [9, 2, 3] : Option (List Nat)) ≠ some [9] := by
  decide

/-- C1 amended: a successfully committed Put followed by a Get of the
same name returns exactly the committed payload, byte-for-byte,
PROVIDED the path the Put streams into (the staging path for an
overwrite, the final path for a first write) holds no pre-existing
file, and the name's control block (if any) points at the name's final
path. -/
theorem upload_download_roundtrip (db : FileDB) (fs : Fs) (name : String)
    (body : List Nat) (hbody : body ≠ [])
    (hclean : fs (uploadWritePath db name) = none)
    (hpath : ∀ obj, dbLookup db name = some obj → obj.Path = finalPath name) :
    (upload db fs name (body.length : Int) body false).status = 201 ∧
    download (upload db fs name (body.length : Int) body false).db
      (upload db fs name (body.length : Int) body false).fs name =
      ⟨200, some body⟩ := by
  have hcl : (body.length : Int) ≠ 0 := fun h =>
    hbody (List.length_eq_zero.mp (Int.natCast_eq_zero.mp h))
  cases hfind : dbLookup db name with
  | none =>
      have hfs : fs (finalPath name) = none := by
        rw [uploadWritePath, hfind] at hclean
        exact hclean
      have hw : copiedContent fs (finalPath name) body = body := by
        rw [copiedContent, hfs]
        simp
      rw [upload_new_success db fs name body hfind hcl]
      refine ⟨rfl, ?_⟩
      refine download_eq _ _ _ ⟨finalPath name⟩ body (dbLookup_assign_self db name _) ?_
      show fsWrite fs (finalPath name) (copiedContent fs (finalPath name) body)
        (finalPath name) = some body
      rw [fsWrite]
      simp [hw]
  | some obj =>
      have hfs : fs (tempPath name) = none := by
        rw [uploadWritePath, hfind] at hclean
        exact hclean
      have hw : copiedContent fs (tempPath name) body = body := by
        rw [copiedContent, hfs]
        simp
      rw [upload_found_success db fs name body obj hfind hcl]
      refine ⟨rfl, ?_⟩
      refine download_eq _ _ _ obj body hfind ?_
      rw [hpath obj hfind]
      show fsRename
        (fsWrite fs (tempPath name) (copiedContent fs (tempPath name) body))
        (tempPath name) (finalPath name) (finalPath name) = some body
      simp [fsRename, fsWrite, hw]

/-- C1 witness: the amended round-trip at the concrete input: first
write of `[7]` under `a` into an empty store and empty disk. -/
theorem upload_download_roundtrip_witness :
    ([7] : List Nat) ≠ [] ∧
    fsEmpty (uploadWritePath [] "a") = none ∧
    ((upload [] fsEmpty "a" (([7] : List Nat).length : Int) [7] false).status = 201 ∧
     download (upload [] fsEmpty "a" (([7] : List Nat).length : Int) [7] false).db
       (upload [] fsEmpty "a" (([7] : List Nat).length : Int) [7] false).fs "a" =
       ⟨200, some [7]⟩) :=
  ⟨by decide, rfl,
    upload_download_roundtrip [] fsEmpty "a" [7] (by decide) rfl
      (fun obj h => Option.noConfusion h)⟩

/-- C2: a Put to a name with a previously committed object whose stream
errors or delivers fewer bytes than the declared (nonzero) length fails
with HTTP 500, removes the staging file, leaves the index unchanged,
and leaves the previously committed object at the name's final path
byte-for-byte untouched. -/
theorem short_put_fails_and_preserves_committed (db : FileDB) (fs : Fs)
    (name : String) (obj : FileObject) (contentLength : Int)
    (body : List Nat) (readErr : Bool)
    (hfound : dbLookup db name = some obj)
    (hcl : contentLength ≠ 0)
    (hshort : readErr = true ∨ (body.length : Int) < contentLength) :
    (upload db fs name contentLength body readErr).status = 500 ∧
    (upload db fs name contentLength body readErr).db = db ∧
    (upload db fs name contentLength body readErr).fs (tempPath name) = none ∧
    (upload db fs name contentLength body readErr).fs (finalPath name) =
      fs (finalPath name) := by
  have hfail : readErr = true ∨ (body.length : Int) ≠ contentLength :=
    hshort.imp id Int.ne_of_lt
  rw [upload_found_fail db fs name obj contentLength body readErr hfound hcl hfail]
  refine ⟨rfl, rfl, ?_, ?_⟩
  · show fsRemove
      (fsWrite fs (tempPath name) (copiedContent fs (tempPath name) body))
      (tempPath name) (tempPath name) = none
    simp [fsRemove]
  · show fsRemove
      (fsWrite fs (tempPath name) (copiedContent fs (tempPath name) body))
      (tempPath name) (finalPath name) = fs (finalPath name)
    rw [fsRemove, fsWrite]
    simp only [if_neg (finalPath_ne_tempPath name)]

/-- C2 witness: the short-Put outcome at a concrete store: `a` is
committed as `[7]` at `files/a`, and a Put of declared length 3
delivering the single byte `[1]` fails, removes `files/a-temp`, and
leaves `files/a` holding `[7]`. -/
theorem short_put_fails_and_preserves_committed_witness :
    dbLookup [("a", ⟨"files/a"⟩)] "a" = some ⟨"files/a"⟩ ∧
    (3 : Int) ≠ 0 ∧
    ((upload [("a", ⟨"files/a"⟩)] (fsWrite fsEmpty "files/a" [7]) "a" 3 [1] false).status = 500 ∧
     (upload [("a", ⟨"files/a"⟩)] (fsWrite fsEmpty "files/a" [7]) "a" 3 [1] false).db =
       [("a", ⟨"files/a"⟩)] ∧
     (upload [("a", ⟨"files/a"⟩)] (fsWrite fsEmpty "files/a" [7]) "a" 3 [1] false).fs
       (tempPath "a") = none ∧
     (upload [("a", ⟨"files/a"⟩)] (fsWrite fsEmpty "files/a" [7]) "a" 3 [1] false).fs
       (finalPath "a") = fsWrite fsEmpty "files/a" [7] (finalPath "a")) :=
  ⟨rfl, by decide,
    short_put_fails_and_preserves_committed [("a", ⟨"files/a"⟩)]
      (fsWrite fsEmpty "files/a" [7]) "a" ⟨"files/a"⟩ 3 [1] false rfl
      (by decide) (Or.inr (by decide))⟩

/-- C10: the path invariant — every name in the index maps to a block
whose `Path` is `StoragePath + "/" + name` — is preserved by the
reconciler (from the empty index) and by every `upload`, successful or
failed; and the index changes only on an upload's 201 success path
(otherwise `upload` returns it unchanged), the reconciler being the
only other writer. -/
theorem storage_path_invariant_preserved (db : FileDB) (fs : Fs)
    (name : String) (contentLength : Int) (body : List Nat) (readErr : Bool)
    (entries : List DirEntry) (hInv : StoragePathInv db) :
    StoragePathInv (upload db fs name contentLength body readErr).db ∧
    ((upload db fs name contentLength body readErr).status ≠ 201 →
      (upload db fs name contentLength body readErr).db = db) ∧
    StoragePathInv (reconcile entries) := by
  refine ⟨?_, upload_db_unchanged_of_fail db fs name contentLength body readErr, ?_⟩
  · rcases upload_db_eq db fs name contentLength body readErr with h | ⟨_, h⟩
    · rw [h]
      exact hInv
    · rw [h]
      exact storagePathInv_assign db name hInv
  · exact storagePathInv_reconcile_foldl entries []
      (fun kv hkv => absurd hkv (List.not_mem_nil kv))

/-- C10 witness: the invariant theorem at a concrete store (one
committed object `x`), a fresh upload of `[7]` to `a`, and a one-entry
directory listing. -/
theorem storage_path_invariant_preserved_witness :
    StoragePathInv [("x", ⟨"files/x"⟩)] ∧
    (StoragePathInv (upload [("x", ⟨"files/x"⟩)] fsEmpty "a" 1 [7] false).db ∧
     ((upload [("x", ⟨"files/x"⟩)] fsEmpty "a" 1 [7] false).status ≠ 201 →
       (upload [("x", ⟨"files/x"⟩)] fsEmpty "a" 1 [7] false).db =
         [("x", ⟨"files/x"⟩)]) ∧
     StoragePathInv (reconcile [DirEntry.mk "sub" false])) := by
  have hInv : StoragePathInv [("x", ⟨"files/x"⟩)] := by
    intro kv hkv
    rcases List.mem_cons.mp hkv with h1 | h1
    · rw [h1]
      rfl
    · exact absurd h1 (List.not_mem_nil kv)
  exact ⟨hInv,
    storage_path_invariant_preserved [("x", ⟨"files/x"⟩)] fsEmpty "a" 1 [7]
      false [DirEntry.mk "sub" false] hInv⟩
